import Mathlib

/-!
Verification development for the tts-openai repository.

The Python sources are shallowly embedded as executable Lean definitions:
  - strings are `List Char`; Python `str.strip`, `str.split`, `int(...)`
    are modelled character by character (ASCII whitespace/digits; the
    sources only ever feed ASCII into these helpers),
  - Python `int` values are `ℤ`, Python `float` durations are `ℚ`
    (the literal `0.0005` is read as the exact rational it denotes),
  - effects (printing of warnings, subprocess results, the filesystem)
    are made explicit: printed diagnostics are returned as data,
    subprocess observations are drawn from an environment record, and
    the filesystem is a finite map from names to byte lists.
-/

/-- Python `\s` / `str.isspace` on the ASCII range: space, tab, newline,
carriage return, vertical tab, form feed. -/
def pySpace (c : Char) : Bool :=
  c = ' ' || c = '\t' || c = '\n' || c = '\r' || c = '\x0b' || c = '\x0c'

/-- Python `str.strip()`: drop leading and trailing whitespace. -/
def pyStrip (l : List Char) : List Char :=
  ((l.dropWhile pySpace).reverse.dropWhile pySpace).reverse

/-- Python `s.split(",")`: split at every comma, keeping empty pieces. -/
def splitComma : List Char → List (List Char)
  | [] => [[]]
  | c :: rest =>
    if c = ',' then [] :: splitComma rest
    else
      match splitComma rest with
      | [] => [[c]]
      | t :: ts => (c :: t) :: ts

/-- Python `s.split("-", 1)` for a string known to contain a dash:
the part before the first dash and the part after it. -/
def splitDashOnce : List Char → List Char × List Char
  | [] => ([], [])
  | c :: rest =>
    if c = '-' then ([], rest)
    else
      let p := splitDashOnce rest
      (c :: p.1, p.2)

/-- Numeric value of an ASCII digit. -/
def digitVal (c : Char) : ℕ := c.toNat - 48

/-- Fold a digit run onto an accumulator, most significant first. -/
def digitsValFrom (acc : ℕ) (l : List Char) : ℕ :=
  l.foldl (fun a c => 10 * a + digitVal c) acc

/-- Tail of the Python `int` numeral grammar after a leading digit:
further digits, with single underscores allowed only between digits.
`needDigit` is true immediately after an underscore. -/
def intTail : ℕ → List Char → Bool → Option ℕ
  | acc, [], needDigit => if needDigit then none else some acc
  | acc, c :: rest, needDigit =>
    if c.isDigit then intTail (10 * acc + digitVal c) rest false
    else if c = '_' && !needDigit then intTail acc rest true
    else none

/-- Unsigned part of Python `int(...)`: a nonempty digit run followed by
optional underscore-separated digit runs. -/
def pyIntOfDigits : List Char → Option ℕ
  | [] => none
  | c :: rest => if c.isDigit then intTail (digitVal c) rest false else none

/-- Python `int(s)` after the outer strip: optional sign, then digits. -/
def pyIntCore : List Char → Option ℤ
  | [] => none
  | c :: rest =>
    if c = '+' then (pyIntOfDigits rest).map (fun n => (n : ℤ))
    else if c = '-' then (pyIntOfDigits rest).map (fun n => -(n : ℤ))
    else (pyIntOfDigits (c :: rest)).map (fun n => (n : ℤ))

/-- Python `int(s)` on a string: strip surrounding whitespace, then parse
an optionally signed decimal numeral (underscores between digits allowed).
`none` models a `ValueError`. -/
def pyInt (l : List Char) : Option ℤ := pyIntCore (pyStrip l)

/-- Python `str(i)` for an `int`, as a character list. -/
def intStr (i : ℤ) : List Char := (toString i).toList

/-- Python `range(lo, hi + 1)` over `int`. -/
def pyRange (lo hi : ℤ) : List ℤ :=
  (List.range (hi + 1 - lo).toNat).map (fun k => lo + k)

/-- A warning diagnostic printed by one of the selection parsers. -/
inductive Diag
  | fallbackAll
  | invalidTokens (toks : List (List Char))
  | exceedHint
deriving DecidableEq

/-- Result of a selection parser: the accepted 1-based index set together
with the warning diagnostics it printed, in print order. -/
structure ParseOut where
  selected : Finset ℤ
  printed : List Diag

namespace TtsOpenai

/-- Python `text[a:b]` with `0 ≤ a ≤ b`. -/
def extract (cs : List Char) (a b : ℕ) : List Char := (cs.take b).drop a

/-- Match the header regex `(?i)\s*Slide\s+\d+\s*:.*` at the start of `s`
(the `(?m)^` anchor is checked by the scanner).  Because no alternative of
the pattern lets a shorter quantifier succeed where the maximal one fails,
each greedy `\s*`, `\s+`, `\d+` is an exact maximal run here; `.*` runs to
the next newline and the final `$` is zero width, so the returned length
is Python's `m.end() - m.start()`.  Note that `\s` includes the newline,
exactly as in Python. -/
def matchHeader (s : List Char) : Option ℕ :=
  let w1 := (s.takeWhile pySpace).length
  match s.drop w1 with
  | c1 :: c2 :: c3 :: c4 :: c5 :: r2 =>
    if c1.toLower = 's' ∧ c2.toLower = 'l' ∧ c3.toLower = 'i' ∧
        c4.toLower = 'd' ∧ c5.toLower = 'e' then
      let w2 := (r2.takeWhile pySpace).length
      if w2 = 0 then none
      else
        let r3 := r2.drop w2
        let d := (r3.takeWhile Char.isDigit).length
        if d = 0 then none
        else
          let r4 := r3.drop d
          let w3 := (r4.takeWhile pySpace).length
          match r4.drop w3 with
          | ':' :: r5 =>
            some (w1 + 5 + w2 + d + w3 + 1 + (r5.takeWhile (fun c => c != '\n')).length)
          | _ => none
    else none
  | _ => none

/-- Index of the last newline in `l`, if any. -/
def lastNewlinePos : List Char → Option ℕ
  | [] => none
  | c :: rest =>
    match lastNewlinePos rest with
    | some k => some (k + 1)
    | none => if c = '\n' then some 0 else none

/-- Match the separator regex `\s*---\s*$` at the start of `s` (the
`(?m)^` anchor is checked by the scanner).  The trailing greedy `\s*`
backtracks until the zero-width `$` holds, i.e. it consumes the whole
trailing whitespace run when that run reaches the end of the text and
otherwise stops just before the last newline of the run; with no such
newline the match fails. -/
def matchSep (s : List Char) : Option ℕ :=
  let w1 := (s.takeWhile pySpace).length
  match s.drop w1 with
  | '-' :: '-' :: '-' :: r2 =>
    let run := r2.takeWhile pySpace
    if r2.drop run.length = [] then some (w1 + 3 + run.length)
    else
      match lastNewlinePos run with
      | some k => some (w1 + 3 + k)
      | none => none
  | _ => none

/-- Is position `p` a `(?m)^` anchor: start of text or just after a
newline?  (The default character handed to `getD` is never a newline.) -/
def anchoredAt (cs : List Char) (p : ℕ) : Bool :=
  p == 0 || cs.getD (p - 1) 'x' == '\n'

/-- One step of the `re.finditer` scan: try the anchored matcher at every
anchor position from left to right and skip over the span of each match
found.  The fuel argument only bounds the number of scan steps; since
every step advances the position by at least one character,
`cs.length + 1` steps always suffice. -/
def findMatchesGo (matcher : List Char → Option ℕ) (cs : List Char) :
    ℕ → ℕ → List (ℕ × ℕ)
  | 0, _ => []
  | fuel + 1, p =>
    if p < cs.length then
      if anchoredAt cs p then
        match matcher (cs.drop p) with
        | some len => (p, p + len) :: findMatchesGo matcher cs fuel (p + max len 1)
        | none => findMatchesGo matcher cs fuel (p + 1)
      else findMatchesGo matcher cs fuel (p + 1)
    else []

/-- All (start, end) spans the anchored matcher finds in `cs`, in
document order, as `re.finditer` / `re.split` enumerate them. -/
def findMatches (matcher : List Char → Option ℕ) (cs : List Char) : List (ℕ × ℕ) :=
  findMatchesGo matcher cs (cs.length + 1) 0

/-- The loop body of `split_text_by_slides` in header mode: for each
header match, the slice from its end to the start of the next header (or
the end of the text), stripped; Python's `content if content else ""` is
kept verbatim. -/
def slidesFromHeaders (text : List Char) : List (ℕ × ℕ) → List (List Char)
  | [] => []
  | (_, e) :: rest =>
    let endPos :=
      match rest with
      | [] => text.length
      | (s2, _) :: _ => s2
    let content := pyStrip (extract text e endPos)
    (if content = [] then [] else content) :: slidesFromHeaders text rest

/-- The pieces `re.split` produces from a list of match spans: the slice
before each match, then the slice after the last match. -/
def piecesFrom (text : List Char) (pos : ℕ) : List (ℕ × ℕ) → List (List Char)
  | [] => [extract text pos text.length]
  | (s, e) :: rest => extract text pos s :: piecesFrom text e rest

/-- Python `re.split(r'(?m)^\s*---\s*$', text)`. -/
def sepSplit (text : List Char) : List (List Char) :=
  piecesFrom text 0 (findMatches matchSep text)

/-- Embedding of `tts_openai.split_text_by_slides(text)`: if any header
matches, one slide per header (empty placeholders kept); otherwise split
on separator lines, stripping every piece and dropping the falsy ones. -/
def split_text_by_slides (text : List Char) : List (List Char) :=
  let headers := findMatches matchHeader text
  if headers ≠ [] then slidesFromHeaders text headers
  else
    (sepSplit text).filterMap (fun p =>
      let s := pyStrip p
      if s = [] then none else some s)

/-- `SlideSegmenter.segment` as claim C2 words it: with at least one
header present, one entry per header in document order, each entry the
trimmed text between that header's end and the next header's start (or
the end of the text), all-whitespace entries kept as empty placeholders;
with no header, the separator-split pieces trimmed with every
empty-after-trimming segment dropped. -/
def segmentSpec (text : List Char) : List (List Char) :=
  let hs := findMatches matchHeader text
  if hs = [] then
    ((sepSplit text).map pyStrip).filter (fun s => !s.isEmpty)
  else
    ((hs.map Prod.snd).zip (hs.tail.map Prod.fst ++ [text.length])).map
      (fun q => pyStrip (extract text q.1 q.2))

/-- One iteration of the token loop of `tts_openai._parse_slides_option`:
strip the token, skip it if empty, expand `A-B` ranges (swapping when the
first endpoint is larger), keep indices `1 ≤ i ≤ total` and record every
other expansion product or unparseable token as invalid. -/
def processToken (total : ℕ) (st : Finset ℤ × List (List Char)) (tok0 : List Char) :
    Finset ℤ × List (List Char) :=
  let tok := pyStrip tok0
  if tok = [] then st
  else if tok.contains '-' then
    let p := splitDashOnce tok
    match pyInt p.1, pyInt p.2 with
    | some a, some b =>
      let lo := if a > b then b else a
      let hi := if a > b then a else b
      (pyRange lo hi).foldl
        (fun st i =>
          if 1 ≤ i ∧ i ≤ (total : ℤ) then (insert i st.1, st.2)
          else (st.1, st.2 ++ [intStr i]))
        st
    | _, _ => (st.1, st.2 ++ [tok])
  else
    match pyInt tok with
    | some idx =>
      if 1 ≤ idx ∧ idx ≤ (total : ℤ) then (insert idx st.1, st.2)
      else (st.1, st.2 ++ [tok])
    | none => (st.1, st.2 ++ [tok])

/-- Embedding of `tts_openai._parse_slides_option(slides_opt, total)`.
An empty option string models the falsy `None`/`""` argument.  Mirrors
the source order of the final branches: an empty accepted set returns
the full range `1..total` after printing only the fallback warning (the
collected invalid tokens are not reported on that path); otherwise the
invalid tokens, if any, are reported and the accepted set returned. -/
def _parse_slides_option (opt : List Char) (total : ℕ) : ParseOut :=
  if opt = [] then ⟨Finset.Icc 1 (total : ℤ), []⟩
  else
    let st := (splitComma opt).foldl (processToken total) (∅, [])
    if st.1 = ∅ then ⟨Finset.Icc 1 (total : ℤ), [Diag.fallbackAll]⟩
    else if st.2 = [] then ⟨st.1, []⟩
    else ⟨st.1, [Diag.invalidTokens st.2]⟩

/-- Python `f"slide_{i:02d}"`'s numeral part: `str(i)` zero-padded to
width two. -/
def pad2 (i : ℤ) : List Char :=
  let s := intStr i
  if s.length = 1 then '0' :: s else s

/-- The output filename `f"slide_{i:02d}.mp3"`. -/
def slideFileName (i : ℤ) : List Char :=
  ("slide_".toList) ++ pad2 i ++ (".mp3".toList)

/-- The per-slide loop of `tts_openai.process_presentation`, given the
segmenter output: the selection is parsed against the slide count and
iterated in ascending order (`sorted(...)`); an index whose slide text
strips to empty is skipped; every other index issues one synthesis
request, recorded as the pair of the index and its output file name.
The function always runs to completion (no exception is raised on a
skip), and the early return for an empty slide list is kept. -/
def process_presentation (slides : List (List Char)) (opt : List Char) :
    List (ℤ × List Char) :=
  if slides = [] then []
  else
    let sel := Finset.sort (· ≤ ·) (_parse_slides_option opt slides.length).selected
    sel.filterMap (fun i =>
      let slideText := slides.getD (i - 1).toNat []
      if pyStrip slideText = [] then none
      else some (i, slideFileName i))

end TtsOpenai

/-- Insert `a` behind every element `b` of a sorted list with `le b a`.
Together with `stableSort` this is a stable sort, which is exactly the
observable behaviour of Python's `sorted` / `list.sort` (a stable sort's
output is uniquely determined, so any stable implementation is a faithful
model). -/
def insertSorted {α : Type} (le : α → α → Bool) (a : α) : List α → List α
  | [] => [a]
  | b :: l => if le b a then b :: insertSorted le a l else a :: b :: l

/-- Stable insertion sort, modelling Python `sorted`. -/
def stableSort {α : Type} (le : α → α → Bool) (l : List α) : List α :=
  l.foldl (fun acc a => insertSorted le a acc) []

/-- Code-point lexicographic order on strings, as Python compares the
paths sorted by `sorted(directory.glob(pattern))`. -/
def lexLe : List Char → List Char → Bool
  | [], _ => true
  | _ :: _, [] => false
  | a :: as, b :: bs => if a = b then lexLe as bs else decide (a.toNat < b.toNat)

namespace MergeMp3s

/-- One iteration of the token loop of `merge_mp3s._parse_slides_option`:
as in the tts variant, but the only acceptance condition is `i ≥ 1`
(no upper bound is known). -/
def processToken (st : Finset ℤ × List (List Char)) (tok0 : List Char) :
    Finset ℤ × List (List Char) :=
  let tok := pyStrip tok0
  if tok = [] then st
  else if tok.contains '-' then
    let p := splitDashOnce tok
    match pyInt p.1, pyInt p.2 with
    | some a, some b =>
      let lo := if a > b then b else a
      let hi := if a > b then a else b
      (pyRange lo hi).foldl
        (fun st i =>
          if 1 ≤ i then (insert i st.1, st.2)
          else (st.1, st.2 ++ [intStr i]))
        st
    | _, _ => (st.1, st.2 ++ [tok])
  else
    match pyInt tok with
    | some idx =>
      if 1 ≤ idx then (insert idx st.1, st.2)
      else (st.1, st.2 ++ [tok])
    | none => (st.1, st.2 ++ [tok])

/-- Embedding of `merge_mp3s._parse_slides_option(slides_opt, hint)`.
A falsy option string yields the empty set (the "no filtering" sentinel).
Invalid tokens are reported first, then the best-effort hint diagnostic
when some accepted index exceeds the provided upper-bound hint. -/
def _parse_slides_option (opt : List Char) (hint : Option ℤ) : ParseOut :=
  if opt = [] then ⟨∅, []⟩
  else
    let st := (splitComma opt).foldl processToken (∅, [])
    let d1 := if st.2 = [] then ([] : List Diag) else [Diag.invalidTokens st.2]
    let d2 :=
      match hint with
      | none => ([] : List Diag)
      | some h => if (st.1.filter (fun i => h < i)) = ∅ then [] else [Diag.exceedHint]
    ⟨st.1, d1 ++ d2⟩

/-- Embedding of `merge_mp3s._extract_slide_num`: the filename regex
`^slide_(\d+)\.mp3$` with `re.IGNORECASE`.  The greedy `(\d+)` is the
maximal digit run (a digit is never `'.'`, so backtracking cannot help),
and lower-casing leaves digits unchanged. -/
def _extract_slide_num (name : List Char) : Option ℤ :=
  match name.map Char.toLower with
  | 's' :: 'l' :: 'i' :: 'd' :: 'e' :: '_' :: rest =>
    let ds := rest.takeWhile Char.isDigit
    if ds = [] then none
    else if rest.drop ds.length = ['.', 'm', 'p', '3'] then
      some ((digitsValFrom 0 ds : ℕ) : ℤ)
    else none
  | _ => none

/-- Embedding of `merge_mp3s._collect_files`: `sorted(directory.glob(pattern))`
is modelled by stably sorting the directory listing (the glob result for
the chosen pattern, supplied by the environment) in filename order.  With
an empty filter all files are returned; otherwise only files parsing to a
selected slide number are kept, stably sorted by that number. -/
def _collect_files (listing : List (List Char)) (slidesFilter : Finset ℤ) :
    List (List Char) :=
  let files := stableSort lexLe listing
  if slidesFilter = ∅ then files
  else
    let byNum := files.filterMap (fun f =>
      match _extract_slide_num f with
      | some n => if n ∈ slidesFilter then some (n, f) else none
      | none => none)
    (stableSort (fun a b => decide (a.1 ≤ b.1)) byNum).map Prod.snd

/-- The input-collection part of `merge_mp3s.main`: collect the files,
then drop every file whose resolved path equals the resolved output path.
`resolve` models `Path.resolve()` and is supplied by the environment. -/
def mainInputFiles (resolve : List Char → List Char) (listing : List (List Char))
    (slidesFilter : Finset ℤ) (outputPath : List Char) : List (List Char) :=
  (_collect_files listing slidesFilter).filter
    (fun f => resolve f != resolve outputPath)

/-- Observed outcome of one external encoder invocation: its exit status
and the state of the output file once it has run. -/
structure AttemptOutcome where
  returncode : ℤ
  outExists : Bool
  outSize : ℕ

/-- Which of the two encoder command lines was invoked. -/
inductive AttemptKind
  | copy
  | reencode
deriving DecidableEq

/-- Environment of one merge run: whether `ffmpeg` is on the PATH, the
path resolver, and the observed outcome of each potential encoder
invocation. -/
structure MergeEnv where
  ffmpegPresent : Bool
  resolvePath : List Char → List Char
  copyOutcome : AttemptOutcome
  reencodeOutcome : AttemptOutcome

/-- The success condition
`res.returncode == 0 and output.exists() and output.stat().st_size > 0`. -/
def attemptOk (a : AttemptOutcome) : Bool :=
  a.returncode == 0 && a.outExists && a.outSize != 0

/-- A filesystem: file name to byte content.  Directory creation and I/O
faults are not modelled; `shutil.copyfile` from an existing source is
total. -/
def Fs : Type := List Char → Option (List ℕ)

/-- Result of `_run_ffmpeg_concat`: the boolean the function returns, the
filesystem afterwards, and the encoder invocations that ran, each with
the manifest of resolved input paths handed to it. -/
structure MergeResult where
  ok : Bool
  fs : Fs
  attempts : List (AttemptKind × List (List Char))

/-- Embedding of `merge_mp3s._run_ffmpeg_concat(inputs, output, overwrite)`.
The temporary concat manifest holds the resolved absolute input paths; it
is written once and handed to both encoder invocations.  The encoders'
effect on the output file is abstracted into the observed
`AttemptOutcome`s of the environment. -/
def _run_ffmpeg_concat (env : MergeEnv) (fs : Fs) (inputs : List (List Char))
    (output : List Char) (overwrite : Bool) : MergeResult :=
  if !env.ffmpegPresent then ⟨false, fs, []⟩
  else if inputs.length = 1 then
    if (fs output).isSome && !overwrite then ⟨false, fs, []⟩
    else
      match fs (inputs.getD 0 []) with
      | none => ⟨false, fs, []⟩
      | some bs => ⟨true, fun q => if q = output then some bs else fs q, []⟩
  else
    let manifest := inputs.map env.resolvePath
    if attemptOk env.copyOutcome then ⟨true, fs, [(AttemptKind.copy, manifest)]⟩
    else if attemptOk env.reencodeOutcome then
      ⟨true, fs, [(AttemptKind.copy, manifest), (AttemptKind.reencode, manifest)]⟩
    else ⟨false, fs, [(AttemptKind.copy, manifest), (AttemptKind.reencode, manifest)]⟩

end MergeMp3s

namespace SumMp3Durations

/-- Outcome of one ffprobe query as the script observes it: the
subprocess raised, the stripped stdout was empty, the first stdout line
did not parse as a float, or it parsed to the value `q`.  (A parsed NaN
compares false in every comparison the script makes, so it behaves as a
nonpositive `val`.) -/
inductive ProbeOut
  | err
  | empty
  | nonNum
  | val (q : ℚ)

/-- Environment of one duration measurement.  `mutagenLen` is the
`audio.info.length` attribute: `none` covers an unavailable or raising
mutagen as well as a missing attribute, all of which the script turns
into a 0.0 duration alike.  Durations are modelled in `ℚ`, so a NaN
metadata value (which no real metadata reader produces for a length) is
outside the model. -/
structure DurEnv where
  mutagenLen : Option ℚ
  ffprobePresent : Bool
  streamQ : ProbeOut
  formatQ : ProbeOut

/-- The measurement strategy reported with each duration. -/
inductive DurSource
  | mutagen
  | ffprobe
  | unknown
deriving DecidableEq

/-- The mutagen-side value the caller sees: `float(length) if length
else 0.0`, with every raising path collapsed to 0.0 by the caller's
`except`. -/
def mutagenDur (env : DurEnv) : ℚ :=
  match env.mutagenLen with
  | none => 0
  | some q => if q = 0 then 0 else q

/-- Embedding of `sum_mp3_durations._duration_via_ffprobe`.  The `none`
result is Python's implicit `None` from falling off the end of the
function, reachable exactly when the stream query yields no positive
value and the format query succeeds with empty output. -/
def _duration_via_ffprobe (env : DurEnv) : Option ℚ :=
  if !env.ffprobePresent then some 0
  else
    let fmt : Option ℚ :=
      match env.formatQ with
      | ProbeOut.err => some 0
      | ProbeOut.empty => none
      | ProbeOut.nonNum => some 0
      | ProbeOut.val q => some (if q > 0 then q else 0)
    match env.streamQ with
    | ProbeOut.val q => if q > 0 then some q else fmt
    | _ => fmt

/-- Embedding of `sum_mp3_durations.get_mp3_duration_seconds`.
`Except.error ()` is the `TypeError` raised by `ff_dur > 0.0005` when the
probe helper returned `None`. -/
def get_mp3_duration_seconds (env : DurEnv) : Except Unit (ℚ × DurSource) :=
  let dur := mutagenDur env
  if dur ≤ 0.0005 then
    match _duration_via_ffprobe env with
    | some ff =>
      if ff > 0.0005 then Except.ok (ff, DurSource.ffprobe)
      else Except.ok (0, DurSource.unknown)
    | none => Except.error ()
  else Except.ok (dur, DurSource.mutagen)

/-- A probe query as claim C3 words its acceptance: the first query whose
result is strictly positive and above the half-millisecond threshold. -/
def acceptQ : ProbeOut → Option ℚ
  | ProbeOut.val q => if q > 0.0005 then some q else none
  | _ => none

/-- The per-file measurement as claim C3 words it: the metadata value
when strictly above half a millisecond; otherwise the first of the
stream query then the format query that is strictly positive and above
the same threshold; else (0.0, unknown). -/
def durationClaimC3 (env : DurEnv) : ℚ × DurSource :=
  let m := mutagenDur env
  if m > 0.0005 then (m, DurSource.mutagen)
  else if env.ffprobePresent then
    match acceptQ env.streamQ with
    | some q => (q, DurSource.ffprobe)
    | none =>
      match acceptQ env.formatQ with
      | some q => (q, DurSource.ffprobe)
      | none => (0, DurSource.unknown)
  else (0, DurSource.unknown)

/-- The measurement as amended for C3: inside the probe helper the
acceptance condition per query is strict positivity only; the
half-millisecond threshold is applied once, to the helper's overall
result; and when the stream query yields no positive value while the
format query succeeds with empty output, the function raises instead of
reporting (0.0, unknown). -/
def durationAmendedC3 (env : DurEnv) : Except Unit (ℚ × DurSource) :=
  let m := mutagenDur env
  if m > 0.0005 then Except.ok (m, DurSource.mutagen)
  else if !env.ffprobePresent then Except.ok (0, DurSource.unknown)
  else
    let first : Option ℚ :=
      match env.streamQ with
      | ProbeOut.val q => if q > 0 then some q else none
      | _ => none
    match first with
    | some q =>
      if q > 0.0005 then Except.ok (q, DurSource.ffprobe)
      else Except.ok (0, DurSource.unknown)
    | none =>
      match env.formatQ with
      | ProbeOut.empty => Except.error ()
      | ProbeOut.val q =>
        if q > 0.0005 then Except.ok (q, DurSource.ffprobe)
        else Except.ok (0, DurSource.unknown)
      | _ => Except.ok (0, DurSource.unknown)

end SumMp3Durations

example : (TtsOpenai._parse_slides_option ("1,3-5,7".toList) 10).selected =
    ({1, 3, 4, 5, 7} : Finset ℤ) := by decide

example : (TtsOpenai._parse_slides_option ("1,3-5,7".toList) 10).printed = [] := by decide

example : (TtsOpenai._parse_slides_option ("0,11".toList) 10).selected =
    Finset.Icc 1 10 := by decide

example : (MergeMp3s._parse_slides_option ("2,4".toList) none).selected =
    ({2, 4} : Finset ℤ) := by decide

example : TtsOpenai.split_text_by_slides ("Slide 1: A\nhello\nSlide 2: B\n  \nSlide 3: C\nworld".toList) =
    ["hello".toList, [], "world".toList] := by decide

example : TtsOpenai.split_text_by_slides ("one\n---\n\ntwo\n---\n   \n".toList) =
    ["one".toList, "two".toList] := by decide

example : TtsOpenai.split_text_by_slides ("sLiDe 7:title\nbody".toList) = ["body".toList] := by decide

/-! ## Helper lemmas -/

lemma ite_nil_self (c : List Char) : (if c = [] then ([] : List Char) else c) = c := by
  by_cases h : c = [] <;> simp [h]

lemma filterMap_strip_eq (l : List (List Char)) :
    (l.filterMap fun p => let s := pyStrip p; if s = [] then none else some s) =
      (l.map pyStrip).filter (fun s => !s.isEmpty) := by
  induction l with
  | nil => rfl
  | cons a l ih =>
    simp only [List.filterMap_cons, List.map_cons, List.filter_cons]
    by_cases h : pyStrip a = []
    · simp [h, ih]
    · simp [h, ih, List.isEmpty_iff]

lemma slidesFromHeaders_eq (text : List Char) (hs : List (ℕ × ℕ)) :
    TtsOpenai.slidesFromHeaders text hs =
      ((hs.map Prod.snd).zip (hs.tail.map Prod.fst ++ [text.length])).map
        (fun q => pyStrip (TtsOpenai.extract text q.1 q.2)) := by
  induction hs with
  | nil => rfl
  | cons h rest ih =>
    obtain ⟨s, e⟩ := h
    cases rest with
    | nil => simp [TtsOpenai.slidesFromHeaders, ite_nil_self]
    | cons q rest2 =>
      obtain ⟨s2, e2⟩ := q
      simp only [TtsOpenai.slidesFromHeaders, ite_nil_self] at ih ⊢
      simp only [List.map_cons, List.tail_cons, List.cons_append, List.zip_cons_cons] at ih ⊢
      rw [ih]

/-- Evaluate `Finset.sort (· ≤ ·)` on a concrete set: it equals any
strictly sorted list with the same elements. -/
lemma finset_sort_eq_of (S : Finset ℤ) (L : List ℤ) (h1 : S = L.toFinset)
    (h2 : List.Sorted (· < ·) L) : Finset.sort (· ≤ ·) S = L := by
  have hnd : L.Nodup := h2.nodup
  refine List.eq_of_perm_of_sorted ?_ (Finset.sort_sorted _ _) h2.le_of_lt
  exact ((Finset.sort_perm_toList _ S).trans (by rw [h1])).trans (List.toFinset_toList hnd)

lemma mem_insertSorted {α : Type} (le : α → α → Bool) (a x : α) (l : List α) :
    x ∈ insertSorted le a l ↔ x = a ∨ x ∈ l := by
  induction l with
  | nil => simp [insertSorted]
  | cons b l ih =>
    by_cases h : le b a
    · simp only [insertSorted, if_pos h, List.mem_cons, ih]
      tauto
    · simp only [insertSorted, if_neg h, List.mem_cons]

lemma mem_stableSort {α : Type} (le : α → α → Bool) (x : α) (l : List α) :
    x ∈ stableSort le l ↔ x ∈ l := by
  suffices h : ∀ acc, x ∈ l.foldl (fun acc a => insertSorted le a acc) acc ↔ x ∈ l ∨ x ∈ acc by
    simpa using h []
  induction l with
  | nil => simp
  | cons b l ih =>
    intro acc
    rw [List.foldl_cons, ih]
    simp [mem_insertSorted]
    tauto

lemma pairwise_insertSorted {α : Type} (le : α → α → Bool)
    (htrans : ∀ a b c, le a b → le b c → le a c)
    (htotal : ∀ a b, le a b ∨ le b a) (a : α) (l : List α)
    (hl : l.Pairwise (fun x y => le x y)) :
    (insertSorted le a l).Pairwise (fun x y => le x y) := by
  induction l with
  | nil => simp [insertSorted]
  | cons b l ih =>
    rcases hl with _ | ⟨hb, hl⟩
    by_cases h : le b a
    · rw [insertSorted, if_pos h]
      refine List.Pairwise.cons ?_ (ih hl)
      intro y hy
      rcases (mem_insertSorted le a y l).mp hy with rfl | hy
      · exact h
      · exact hb y hy
    · rw [insertSorted, if_neg h]
      have hab : le a b := (htotal a b).resolve_right (fun hba => h hba)
      refine List.Pairwise.cons ?_ (List.Pairwise.cons hb hl)
      intro y hy
      rcases List.mem_cons.mp hy with rfl | hy
      · exact hab
      · exact htrans a b y hab (hb y hy)

lemma pairwise_stableSort {α : Type} (le : α → α → Bool)
    (htrans : ∀ a b c, le a b → le b c → le a c)
    (htotal : ∀ a b, le a b ∨ le b a) (l : List α) :
    (stableSort le l).Pairwise (fun x y => le x y) := by
  suffices h : ∀ acc, acc.Pairwise (fun x y => le x y) →
      (l.foldl (fun acc a => insertSorted le a acc) acc).Pairwise (fun x y => le x y) by
    exact h [] (by simp)
  induction l with
  | nil => intro acc hacc; simpa using hacc
  | cons b l ih =>
    intro acc hacc
    rw [List.foldl_cons]
    exact ih _ (pairwise_insertSorted le htrans htotal b acc hacc)

/-! ## Theorems about the claims -/

/-- C1 (code bug): the parser is claimed to report every rejected token as
a warning even when the accepted set is empty and the full-range fallback
fires.  Evaluating the embedded code at the failing input: parsing "0,11"
with upper bound 10 takes the fallback and returns the full set 1..10,
but the only diagnostic printed is the fallback warning — the rejected
out-of-range tokens "0" and "11" are never reported, because the function
returns before reaching the invalid-token warning. -/
theorem C1_fallback_drops_rejected_token_report :
    (TtsOpenai._parse_slides_option ("0,11".toList) 10).selected = Finset.Icc 1 10 ∧
    (TtsOpenai._parse_slides_option ("0,11".toList) 10).printed = [Diag.fallbackAll] ∧
    ∀ toks, Diag.invalidTokens toks ∉ (TtsOpenai._parse_slides_option ("0,11".toList) 10).printed := by
  have h : (TtsOpenai._parse_slides_option ("0,11".toList) 10).printed = [Diag.fallbackAll] := by
    decide
  refine ⟨by decide, h, ?_⟩
  intro toks
  rw [h]
  simp

/-- C2: `split_text_by_slides` matches the claimed segmentation contract:
with at least one header match, one entry per header in document order,
each the trimmed slice from that header's end to the next header's start
(or the end of the text), all-whitespace entries kept as empty
placeholders; with no header, the text is split on whitespace-framed
`---` lines and every segment that is empty after trimming is dropped. -/
theorem C2_segment_matches_spec (text : List Char) :
    TtsOpenai.split_text_by_slides text = TtsOpenai.segmentSpec text := by
  unfold TtsOpenai.split_text_by_slides TtsOpenai.segmentSpec
  by_cases h : TtsOpenai.findMatches TtsOpenai.matchHeader text = []
  · simp [h, filterMap_strip_eq]
  · simp [h, slidesFromHeaders_eq]

/-- C6: whatever the resolver, directory listing, selection filter and
output path, the resolved output path never occurs among the resolved
final merge inputs — the exclusion happens before any merge attempt. -/
theorem C6_output_excluded_from_inputs (resolve : List Char → List Char)
    (listing : List (List Char)) (slidesFilter : Finset ℤ) (outputPath : List Char) :
    resolve outputPath ∉
      (MergeMp3s.mainInputFiles resolve listing slidesFilter outputPath).map resolve := by
  intro hmem
  rcases List.mem_map.mp hmem with ⟨f, hf, hres⟩
  have hkeep := List.of_mem_filter hf
  rw [bne_iff_ne] at hkeep
  exact hkeep hres

/-- C4: for a multi-input merge with the encoder on the PATH, the stream
copy counts as success exactly when its exit status is zero and the
output exists and is non-empty; the re-encode attempt runs — on the same
manifest — precisely when the copy attempt fails that condition, with the
same success condition; and the merge returns failure exactly when both
attempts fail it. -/
theorem C4_merge_fallback_chain (env : MergeMp3s.MergeEnv) (fs : MergeMp3s.Fs)
    (inputs : List (List Char)) (output : List Char) (overwrite : Bool)
    (hff : env.ffmpegPresent = true) (hn : 2 ≤ inputs.length) :
    (MergeMp3s._run_ffmpeg_concat env fs inputs output overwrite).ok =
      (MergeMp3s.attemptOk env.copyOutcome || MergeMp3s.attemptOk env.reencodeOutcome) ∧
    (MergeMp3s._run_ffmpeg_concat env fs inputs output overwrite).attempts =
      (if MergeMp3s.attemptOk env.copyOutcome then
        [(MergeMp3s.AttemptKind.copy, inputs.map env.resolvePath)]
      else
        [(MergeMp3s.AttemptKind.copy, inputs.map env.resolvePath),
         (MergeMp3s.AttemptKind.reencode, inputs.map env.resolvePath)]) := by
  have hne : ¬ inputs.length = 1 := by omega
  by_cases h1 : MergeMp3s.attemptOk env.copyOutcome <;>
    by_cases h2 : MergeMp3s.attemptOk env.reencodeOutcome <;>
      simp [MergeMp3s._run_ffmpeg_concat, hff, hne, h1, h2]

/-- Witness for C4 at a concrete input: two inputs, the copy attempt
exits 1 (failure), the re-encode attempt exits 0 with a non-empty output
file; the merge succeeds and both attempts ran on the same manifest. -/
theorem C4_merge_fallback_chain_witness :
    2 ≤ (["a.mp3".toList, "b.mp3".toList] : List (List Char)).length ∧
    (MergeMp3s._run_ffmpeg_concat ⟨true, id, ⟨1, true, 0⟩, ⟨0, true, 5⟩⟩ (fun _ => none)
      ["a.mp3".toList, "b.mp3".toList] ("out.mp3".toList) false).ok = true ∧
    (MergeMp3s._run_ffmpeg_concat ⟨true, id, ⟨1, true, 0⟩, ⟨0, true, 5⟩⟩ (fun _ => none)
      ["a.mp3".toList, "b.mp3".toList] ("out.mp3".toList) false).attempts =
      [(MergeMp3s.AttemptKind.copy, ["a.mp3".toList, "b.mp3".toList]),
       (MergeMp3s.AttemptKind.reencode, ["a.mp3".toList, "b.mp3".toList])] := by
  have h := C4_merge_fallback_chain ⟨true, id, ⟨1, true, 0⟩, ⟨0, true, 5⟩⟩ (fun _ => none)
    ["a.mp3".toList, "b.mp3".toList] ("out.mp3".toList) false rfl (by decide)
  exact ⟨by decide, h.1.trans (by decide), h.2.trans (by decide)⟩

/-- C7: single-input merge with the encoder on the PATH and a readable
input: when the output does not exist or the overwrite flag is set, the
merge succeeds and the output afterwards holds exactly the input's bytes;
when the output exists and the flag is not set, the merge fails and the
filesystem is left unmodified. -/
theorem C7_single_input_copy (env : MergeMp3s.MergeEnv) (fs : MergeMp3s.Fs)
    (input output : List Char) (overwrite : Bool) (bs : List ℕ)
    (hff : env.ffmpegPresent = true) (hin : fs input = some bs) :
    ((fs output = none ∨ overwrite = true) →
      (MergeMp3s._run_ffmpeg_concat env fs [input] output overwrite).ok = true ∧
      (MergeMp3s._run_ffmpeg_concat env fs [input] output overwrite).fs output = some bs) ∧
    ((fs output).isSome = true ∧ overwrite = false →
      (MergeMp3s._run_ffmpeg_concat env fs [input] output overwrite).ok = false ∧
      (MergeMp3s._run_ffmpeg_concat env fs [input] output overwrite).fs = fs) := by
  constructor
  · rintro (hnone | hov)
    · simp [MergeMp3s._run_ffmpeg_concat, hff, hnone, hin]
    · simp [MergeMp3s._run_ffmpeg_concat, hff, hov, hin]
  · rintro ⟨hsome, hov⟩
    simp [MergeMp3s._run_ffmpeg_concat, hff, hov, hsome]

/-- Witness for C7 at a concrete input: the encoder present, the input
file holds bytes [7], no output file exists, overwrite off — the merge
succeeds and the output then holds exactly those bytes. -/
theorem C7_single_input_copy_witness :
    ((fun n : List Char => if n = "in.mp3".toList then some [7] else none)
        ("in.mp3".toList) = some ([7] : List ℕ)) ∧
    (MergeMp3s._run_ffmpeg_concat ⟨true, id, ⟨0, false, 0⟩, ⟨0, false, 0⟩⟩
      (fun n : List Char => if n = "in.mp3".toList then some [7] else none)
      ["in.mp3".toList] ("out.mp3".toList) false).ok = true ∧
    (MergeMp3s._run_ffmpeg_concat ⟨true, id, ⟨0, false, 0⟩, ⟨0, false, 0⟩⟩
      (fun n : List Char => if n = "in.mp3".toList then some [7] else none)
      ["in.mp3".toList] ("out.mp3".toList) false).fs ("out.mp3".toList) = some [7] := by
  have h := (C7_single_input_copy ⟨true, id, ⟨0, false, 0⟩, ⟨0, false, 0⟩⟩
    (fun n : List Char => if n = "in.mp3".toList then some [7] else none)
    ("in.mp3".toList) ("out.mp3".toList) false [7] rfl (by decide)).1 (Or.inl (by decide))
  exact ⟨by decide, h.1, h.2⟩

/-- Membership in the (number, file) pairs `_collect_files` builds from a
file list: exactly the listed files whose name parses to a slide number
in the filter, paired with that number. -/
lemma mem_collect_pair (files : List (List Char)) (filt : Finset ℤ) (p : ℤ × List Char) :
    p ∈ files.filterMap (fun f =>
      match MergeMp3s._extract_slide_num f with
      | some n => if n ∈ filt then some (n, f) else none
      | none => none) ↔
    p.2 ∈ files ∧ MergeMp3s._extract_slide_num p.2 = some p.1 ∧ p.1 ∈ filt := by
  rw [List.mem_filterMap]
  constructor
  · rintro ⟨f, hf, hg⟩
    rcases he : MergeMp3s._extract_slide_num f with _ | n
    · simp only [he] at hg
      simp at hg
    · simp only [he] at hg
      by_cases hn : n ∈ filt
      · rw [if_pos hn] at hg
        obtain rfl := Option.some_inj.mp hg
        exact ⟨hf, he, hn⟩
      · rw [if_neg hn] at hg
        simp at hg
  · rintro ⟨hmem, he, hn⟩
    refine ⟨p.2, hmem, ?_⟩
    simp only [he, if_pos hn]

/-- C5: with a non-empty selection filter, `_collect_files` keeps exactly
the listed files whose name matches the `slide_<digits>.mp3` convention
(case-insensitively) with parsed number in the filter, and the result is
ordered ascending by that parsed number. -/
theorem C5_collect_files_numeric_order (listing : List (List Char)) (filt : Finset ℤ)
    (hne : filt ≠ ∅) :
    (∀ f, f ∈ MergeMp3s._collect_files listing filt ↔
      f ∈ listing ∧ ∃ n, MergeMp3s._extract_slide_num f = some n ∧ n ∈ filt) ∧
    ((MergeMp3s._collect_files listing filt).map
      (fun f => (MergeMp3s._extract_slide_num f).getD 0)).Sorted (· ≤ ·) := by
  simp only [MergeMp3s._collect_files, if_neg hne]
  constructor
  · intro f
    constructor
    · intro hf
      rcases List.mem_map.mp hf with ⟨p, hp, rfl⟩
      have hp' := (mem_stableSort _ p _).mp hp
      have hchar := (mem_collect_pair _ filt p).mp hp'
      exact ⟨(mem_stableSort _ _ _).mp hchar.1, p.1, hchar.2.1, hchar.2.2⟩
    · rintro ⟨hmem, n, he, hn⟩
      apply List.mem_map.mpr
      refine ⟨(n, f), ?_, rfl⟩
      apply (mem_stableSort _ _ _).mpr
      apply (mem_collect_pair _ filt (n, f)).mpr
      exact ⟨(mem_stableSort _ _ _).mpr hmem, he, hn⟩
  · have hpw := pairwise_stableSort (fun a b : ℤ × List Char => decide (a.1 ≤ b.1))
      (fun a b c hab hbc => by
        simp only [decide_eq_true_eq] at hab hbc ⊢
        exact le_trans hab hbc)
      (fun a b => by
        rcases le_total a.1 b.1 with h | h
        · exact Or.inl (by simpa using h)
        · exact Or.inr (by simpa using h))
      ((stableSort lexLe listing).filterMap (fun f =>
        match MergeMp3s._extract_slide_num f with
        | some n => if n ∈ filt then some (n, f) else none
        | none => none))
    rw [List.map_map]
    show List.Pairwise _ _
    rw [List.pairwise_map]
    refine hpw.imp_of_mem ?_
    intro p q hp hq hle
    have hp' := (mem_collect_pair _ filt p).mp ((mem_stableSort _ _ _).mp hp)
    have hq' := (mem_collect_pair _ filt q).mp ((mem_stableSort _ _ _).mp hq)
    simp only [Function.comp, hp'.2.1, hq'.2.1, Option.getD_some]
    simpa using hle

/-- Witness for C5 at the claim's concrete example: the listing
`slide_2.mp3, slide_10.mp3, slide_1.mp3` with selection {1, 2, 10} is
kept in full and reordered numerically as slide_1, slide_2, slide_10
(not in filename string order). -/
theorem C5_collect_files_numeric_order_witness :
    ({1, 2, 10} : Finset ℤ) ≠ ∅ ∧
    ("slide_2.mp3".toList ∈ MergeMp3s._collect_files
        ["slide_2.mp3".toList, "slide_10.mp3".toList, "slide_1.mp3".toList] {1, 2, 10} ↔
      "slide_2.mp3".toList ∈
          (["slide_2.mp3".toList, "slide_10.mp3".toList, "slide_1.mp3".toList] : List (List Char)) ∧
        ∃ n, MergeMp3s._extract_slide_num ("slide_2.mp3".toList) = some n ∧
          n ∈ ({1, 2, 10} : Finset ℤ)) ∧
    ((MergeMp3s._collect_files
        ["slide_2.mp3".toList, "slide_10.mp3".toList, "slide_1.mp3".toList] {1, 2, 10}).map
      (fun f => (MergeMp3s._extract_slide_num f).getD 0)).Sorted (· ≤ ·) ∧
    MergeMp3s._collect_files
        ["slide_2.mp3".toList, "slide_10.mp3".toList, "slide_1.mp3".toList] {1, 2, 10} =
      ["slide_1.mp3".toList, "slide_2.mp3".toList, "slide_10.mp3".toList] := by
  have h := C5_collect_files_numeric_order
    ["slide_2.mp3".toList, "slide_10.mp3".toList, "slide_1.mp3".toList] {1, 2, 10} (by decide)
  exact ⟨by decide, h.1 _, h.2, by decide⟩

/-- C3 counterexample: mutagen unavailable, ffprobe present, the stream
query parses to 0.00025 and the format query to 1.  The claim's reading
rejects the stream value at the half-millisecond threshold and accepts
the format value, reporting (1, ffprobe); the code's probe helper accepts
the stream value already (it only requires strict positivity there), and
the caller then discards it at the threshold, reporting (0.0, unknown). -/
theorem C3_counterexample :
    SumMp3Durations.get_mp3_duration_seconds
        ⟨none, true, SumMp3Durations.ProbeOut.val (1 / 4000), SumMp3Durations.ProbeOut.val 1⟩ =
      Except.ok (0, SumMp3Durations.DurSource.unknown) ∧
    SumMp3Durations.durationClaimC3
        ⟨none, true, SumMp3Durations.ProbeOut.val (1 / 4000), SumMp3Durations.ProbeOut.val 1⟩ =
      (1, SumMp3Durations.DurSource.ffprobe) ∧
    SumMp3Durations.get_mp3_duration_seconds
        ⟨none, true, SumMp3Durations.ProbeOut.val (1 / 4000), SumMp3Durations.ProbeOut.val 1⟩ ≠
      Except.ok (SumMp3Durations.durationClaimC3
        ⟨none, true, SumMp3Durations.ProbeOut.val (1 / 4000), SumMp3Durations.ProbeOut.val 1⟩) := by
  have h1 : SumMp3Durations.get_mp3_duration_seconds
      ⟨none, true, SumMp3Durations.ProbeOut.val (1 / 4000), SumMp3Durations.ProbeOut.val 1⟩ =
      Except.ok (0, SumMp3Durations.DurSource.unknown) := by
    norm_num [SumMp3Durations.get_mp3_duration_seconds, SumMp3Durations.mutagenDur,
      SumMp3Durations._duration_via_ffprobe]
  have h2 : SumMp3Durations.durationClaimC3
      ⟨none, true, SumMp3Durations.ProbeOut.val (1 / 4000), SumMp3Durations.ProbeOut.val 1⟩ =
      (1, SumMp3Durations.DurSource.ffprobe) := by
    norm_num [SumMp3Durations.durationClaimC3, SumMp3Durations.mutagenDur,
      SumMp3Durations.acceptQ]
  refine ⟨h1, h2, ?_⟩
  intro h
  rw [h1, h2] at h
  have h3 := congrArg Prod.fst (Except.ok.inj h)
  exact absurd h3 (by norm_num)

set_option maxHeartbeats 1600000 in
/-- C3 as amended: `get_mp3_duration_seconds` equals, on every
environment, the measurement in which the probe helper accepts the first
strictly-positive query result (stream, then format) without a
threshold, the half-millisecond threshold is applied once to the helper's
overall value, and the format-query-succeeds-with-empty-output case
raises instead of reporting (0.0, unknown). -/
theorem C3_amended_duration_chain (env : SumMp3Durations.DurEnv) :
    SumMp3Durations.get_mp3_duration_seconds env = SumMp3Durations.durationAmendedC3 env := by
  obtain ⟨m, ffp, sq, fq⟩ := env
  unfold SumMp3Durations.get_mp3_duration_seconds SumMp3Durations.durationAmendedC3
    SumMp3Durations._duration_via_ffprobe
  cases ffp <;> rcases sq with _ | _ | _ | q1 <;> rcases fq with _ | _ | _ | q2 <;>
    simp only [Bool.not_false, Bool.not_true] <;> split_ifs <;> first
      | rfl
      | (exfalso; linarith)
      | (norm_num <;> (intros; first | rfl | (exfalso; linarith)))

/-- C10 counterexample: with the mutagen value unavailable, ffprobe
present, the stream query failing and the format query succeeding with
empty output, the per-file measurement does not return any pair at all —
it raises (the probe helper falls off the end returning None and the
caller's threshold comparison is a TypeError). -/
theorem C10_counterexample :
    SumMp3Durations.get_mp3_duration_seconds
        ⟨none, true, SumMp3Durations.ProbeOut.err, SumMp3Durations.ProbeOut.empty⟩ =
      Except.error () ∧
    ∀ p : ℚ × SumMp3Durations.DurSource,
      SumMp3Durations.get_mp3_duration_seconds
          ⟨none, true, SumMp3Durations.ProbeOut.err, SumMp3Durations.ProbeOut.empty⟩ ≠
        Except.ok p := by
  have h : SumMp3Durations.get_mp3_duration_seconds
      ⟨none, true, SumMp3Durations.ProbeOut.err, SumMp3Durations.ProbeOut.empty⟩ =
      Except.error () := by
    norm_num [SumMp3Durations.get_mp3_duration_seconds, SumMp3Durations.mutagenDur,
      SumMp3Durations._duration_via_ffprobe]
  refine ⟨h, ?_⟩
  intro p hp
  rw [h] at hp
  exact Except.noConfusion hp

/-- C10 as amended: whenever the per-file measurement does return a pair,
the pair satisfies the claimed invariant — a "mutagen" or "ffprobe"
source comes with a duration strictly above half a millisecond, an
"unknown" source with exactly 0.0, and the duration is never negative.
(The "always returns a pair" half of the claim fails, see the
counterexample.) -/
theorem C10_returned_pair_invariant (env : SumMp3Durations.DurEnv)
    (q : ℚ) (s : SumMp3Durations.DurSource)
    (h : SumMp3Durations.get_mp3_duration_seconds env = Except.ok (q, s)) :
    0 ≤ q ∧ (s = SumMp3Durations.DurSource.unknown → q = 0) ∧
      (s ≠ SumMp3Durations.DurSource.unknown → q > 0.0005) := by
  unfold SumMp3Durations.get_mp3_duration_seconds at h
  by_cases hm : SumMp3Durations.mutagenDur env ≤ 0.0005
  · rw [if_pos hm] at h
    rcases hff : SumMp3Durations._duration_via_ffprobe env with _ | ff
    · rw [hff] at h
      simp only [] at h
      exact Except.noConfusion h
    · rw [hff] at h
      simp only [] at h
      by_cases hthr : ff > 0.0005
      · rw [if_pos hthr] at h
        injection h with h2
        rw [Prod.ext_iff] at h2
        obtain ⟨hq, hs⟩ := h2
        subst hq
        subst hs
        refine ⟨by linarith, ?_, fun _ => hthr⟩
        intro hc
        exact SumMp3Durations.DurSource.noConfusion hc
      · rw [if_neg hthr] at h
        injection h with h2
        rw [Prod.ext_iff] at h2
        obtain ⟨hq, hs⟩ := h2
        subst hq
        subst hs
        exact ⟨le_refl 0, fun _ => rfl, fun hne => absurd rfl hne⟩
  · rw [if_neg hm] at h
    injection h with h2
    rw [Prod.ext_iff] at h2
    obtain ⟨hq, hs⟩ := h2
    subst hq
    subst hs
    have hgt : SumMp3Durations.mutagenDur env > 0.0005 := lt_of_not_le hm
    refine ⟨by linarith, ?_, fun _ => hgt⟩
    intro hc
    exact SumMp3Durations.DurSource.noConfusion hc

/-- Witness for C10's invariant at a concrete environment: mutagen
reports 3 seconds, so the measurement returns (3, mutagen), which
satisfies the invariant. -/
theorem C10_returned_pair_invariant_witness :
    SumMp3Durations.get_mp3_duration_seconds
        ⟨some 3, false, SumMp3Durations.ProbeOut.err, SumMp3Durations.ProbeOut.err⟩ =
      Except.ok (3, SumMp3Durations.DurSource.mutagen) ∧
    (0 ≤ (3 : ℚ) ∧
      (SumMp3Durations.DurSource.mutagen = SumMp3Durations.DurSource.unknown → (3 : ℚ) = 0) ∧
      (SumMp3Durations.DurSource.mutagen ≠ SumMp3Durations.DurSource.unknown →
        (3 : ℚ) > 0.0005)) := by
  have h : SumMp3Durations.get_mp3_duration_seconds
      ⟨some 3, false, SumMp3Durations.ProbeOut.err, SumMp3Durations.ProbeOut.err⟩ =
      Except.ok (3, SumMp3Durations.DurSource.mutagen) := by
    norm_num [SumMp3Durations.get_mp3_duration_seconds, SumMp3Durations.mutagenDur]
  exact ⟨h, C10_returned_pair_invariant _ 3 _ h⟩

lemma noWs_of_digit (c : Char) (h : c.isDigit = true) : pySpace c = false := by
  by_cases h1 : c = ' '
  · subst h1; exact absurd h (by decide)
  by_cases h2 : c = '\t'
  · subst h2; exact absurd h (by decide)
  by_cases h3 : c = '\n'
  · subst h3; exact absurd h (by decide)
  by_cases h4 : c = '\r'
  · subst h4; exact absurd h (by decide)
  by_cases h5 : c = '\x0b'
  · subst h5; exact absurd h (by decide)
  by_cases h6 : c = '\x0c'
  · subst h6; exact absurd h (by decide)
  simp [pySpace, h1, h2, h3, h4, h5, h6]

lemma dropWhile_eq_self_of (p : Char → Bool) (l : List Char)
    (h : ∀ c ∈ l, p c = false) : l.dropWhile p = l := by
  cases l with
  | nil => rfl
  | cons c rest =>
    rw [List.dropWhile_cons, h c (List.mem_cons_self c rest)]
    simp

lemma pyStrip_eq_self (l : List Char) (h : ∀ c ∈ l, pySpace c = false) :
    pyStrip l = l := by
  unfold pyStrip
  rw [dropWhile_eq_self_of _ _ h,
    dropWhile_eq_self_of _ _ (fun c hc => h c (List.mem_reverse.mp hc))]
  exact List.reverse_reverse l

lemma splitComma_no_comma (l : List Char) (h : ∀ c ∈ l, ¬ c = ',') :
    splitComma l = [l] := by
  induction l with
  | nil => rfl
  | cons c rest ih =>
    have hc : ¬ c = ',' := h c (List.mem_cons_self c rest)
    have ih' := ih (fun d hd => h d (List.mem_cons_of_mem _ hd))
    simp [splitComma, hc, ih']

lemma splitDashOnce_append (a b : List Char) (h : ∀ c ∈ a, ¬ c = '-') :
    splitDashOnce (a ++ '-' :: b) = (a, b) := by
  induction a with
  | nil => simp [splitDashOnce]
  | cons c as ih =>
    have hc : ¬ c = '-' := h c (List.mem_cons_self c as)
    have ih' := ih (fun d hd => h d (List.mem_cons_of_mem _ hd))
    simp [splitDashOnce, hc, ih']

lemma contains_dash (a b : List Char) : (a ++ '-' :: b).contains '-' = true := by
  have hmem : '-' ∈ a ++ '-' :: b :=
    List.mem_append_right _ (List.mem_cons_self _ _)
  exact List.elem_eq_true_of_mem hmem

lemma intTail_digits (l : List Char) (h : ∀ c ∈ l, c.isDigit = true) :
    ∀ acc, intTail acc l false = some (digitsValFrom acc l) := by
  induction l with
  | nil => intro acc; rfl
  | cons c rest ih =>
    intro acc
    have hc := h c (List.mem_cons_self c rest)
    rw [intTail, if_pos hc, ih (fun d hd => h d (List.mem_cons_of_mem _ hd))]
    simp [digitsValFrom]

lemma pyInt_digits (l : List Char) (hne : l ≠ []) (h : ∀ c ∈ l, c.isDigit = true) :
    pyInt l = some ((digitsValFrom 0 l : ℕ) : ℤ) := by
  obtain ⟨c, rest, rfl⟩ : ∃ c rest, l = c :: rest := by
    cases l with
    | nil => exact absurd rfl hne
    | cons c rest => exact ⟨c, rest, rfl⟩
  have hc := h c (List.mem_cons_self _ _)
  have hplus : ¬ c = '+' := fun e => absurd hc (by subst e; decide)
  have hminus : ¬ c = '-' := fun e => absurd hc (by subst e; decide)
  unfold pyInt
  rw [pyStrip_eq_self _ (fun d hd => noWs_of_digit d (h d hd))]
  rw [pyIntCore, if_neg hplus, if_neg hminus]
  rw [pyIntOfDigits, if_pos hc,
    intTail_digits _ (fun d hd => h d (List.mem_cons_of_mem _ hd)) _]
  simp [digitsValFrom]

/-- A digit-only token is free of commas, dashes and whitespace. -/
lemma digit_token_chars (a b : List Char)
    (hda : ∀ c ∈ a, c.isDigit = true) (hdb : ∀ c ∈ b, c.isDigit = true) :
    (∀ c ∈ a ++ '-' :: b, ¬ c = ',') ∧ (∀ c ∈ a ++ '-' :: b, pySpace c = false) ∧
      (∀ c ∈ a, ¬ c = '-') := by
  refine ⟨?_, ?_, ?_⟩
  · intro c hc
    rcases List.mem_append.mp hc with hc | hc
    · exact fun e => absurd (hda c hc) (by subst e; decide)
    · rcases List.mem_cons.mp hc with rfl | hc
      · decide
      · exact fun e => absurd (hdb c hc) (by subst e; decide)
  · intro c hc
    rcases List.mem_append.mp hc with hc | hc
    · exact noWs_of_digit c (hda c hc)
    · rcases List.mem_cons.mp hc with rfl | hc
      · decide
      · exact noWs_of_digit c (hdb c hc)
  · intro c hc
    exact fun e => absurd (hda c hc) (by subst e; decide)

lemma processToken_tts_symm (total : ℕ) (st : Finset ℤ × List (List Char))
    (a b : List Char) (ha : a ≠ []) (hb : b ≠ [])
    (hda : ∀ c ∈ a, c.isDigit = true) (hdb : ∀ c ∈ b, c.isDigit = true) :
    TtsOpenai.processToken total st (a ++ '-' :: b) =
      TtsOpenai.processToken total st (b ++ '-' :: a) := by
  obtain ⟨hc1, hw1, hd1⟩ := digit_token_chars a b hda hdb
  obtain ⟨hc2, hw2, hd2⟩ := digit_token_chars b a hdb hda
  have hne1 : ¬ (a ++ '-' :: b) = [] := by simp
  have hne2 : ¬ (b ++ '-' :: a) = [] := by simp
  have hia := pyInt_digits a ha hda
  have hib := pyInt_digits b hb hdb
  set va := ((digitsValFrom 0 a : ℕ) : ℤ) with hva
  set vb := ((digitsValFrom 0 b : ℕ) : ℤ) with hvb
  unfold TtsOpenai.processToken
  simp only [pyStrip_eq_self _ hw1, pyStrip_eq_self _ hw2, if_neg hne1, if_neg hne2,
    contains_dash, if_true, splitDashOnce_append a b hd1, splitDashOnce_append b a hd2,
    hia, hib]
  rcases lt_trichotomy va vb with hlt | heq | hgt
  · rw [if_neg (not_lt.mpr hlt.le), if_neg (not_lt.mpr hlt.le), if_pos hlt, if_pos hlt]
  · rw [heq]
  · rw [if_pos hgt, if_pos hgt, if_neg (not_lt.mpr hgt.le), if_neg (not_lt.mpr hgt.le)]

lemma processToken_merge_symm (st : Finset ℤ × List (List Char))
    (a b : List Char) (ha : a ≠ []) (hb : b ≠ [])
    (hda : ∀ c ∈ a, c.isDigit = true) (hdb : ∀ c ∈ b, c.isDigit = true) :
    MergeMp3s.processToken st (a ++ '-' :: b) =
      MergeMp3s.processToken st (b ++ '-' :: a) := by
  obtain ⟨hc1, hw1, hd1⟩ := digit_token_chars a b hda hdb
  obtain ⟨hc2, hw2, hd2⟩ := digit_token_chars b a hdb hda
  have hne1 : ¬ (a ++ '-' :: b) = [] := by simp
  have hne2 : ¬ (b ++ '-' :: a) = [] := by simp
  have hia := pyInt_digits a ha hda
  have hib := pyInt_digits b hb hdb
  set va := ((digitsValFrom 0 a : ℕ) : ℤ) with hva
  set vb := ((digitsValFrom 0 b : ℕ) : ℤ) with hvb
  unfold MergeMp3s.processToken
  simp only [pyStrip_eq_self _ hw1, pyStrip_eq_self _ hw2, if_neg hne1, if_neg hne2,
    contains_dash, if_true, splitDashOnce_append a b hd1, splitDashOnce_append b a hd2,
    hia, hib]
  rcases lt_trichotomy va vb with hlt | heq | hgt
  · rw [if_neg (not_lt.mpr hlt.le), if_neg (not_lt.mpr hlt.le), if_pos hlt, if_pos hlt]
  · rw [heq]
  · rw [if_pos hgt, if_pos hgt, if_neg (not_lt.mpr hgt.le), if_neg (not_lt.mpr hgt.le)]

/-- C8 counterexample to "for all integers": with the negative endpoint
written first, the token "-5-3" splits at its first dash into "" and
"5-3", fails integer parsing, and is rejected outright — the bounded
parser then falls back to the full range — whereas "3--5" splits into "3"
and "-5" and expands to the clamped range {1, 2, 3}. -/
theorem C8_counterexample :
    (TtsOpenai._parse_slides_option ("3--5".toList) 10).selected ≠
      (TtsOpenai._parse_slides_option ("-5-3".toList) 10).selected := by decide

/-- C8 as amended: for nonnegative integer endpoints (nonempty digit
strings) A and B, parsing the single token "A-B" gives exactly the same
result as parsing "B-A" — when the first endpoint is larger the pair is
swapped before the range is expanded — in both the bounded (tts) parser
and the unbounded (merge-path) parser, whatever the bound or hint. -/
theorem C8_amended_range_symmetry (a b : List Char) (total : ℕ) (hint : Option ℤ)
    (ha : a ≠ []) (hb : b ≠ [])
    (hda : ∀ c ∈ a, c.isDigit = true) (hdb : ∀ c ∈ b, c.isDigit = true) :
    TtsOpenai._parse_slides_option (a ++ '-' :: b) total =
      TtsOpenai._parse_slides_option (b ++ '-' :: a) total ∧
    MergeMp3s._parse_slides_option (a ++ '-' :: b) hint =
      MergeMp3s._parse_slides_option (b ++ '-' :: a) hint := by
  obtain ⟨hc1, hw1, hd1⟩ := digit_token_chars a b hda hdb
  obtain ⟨hc2, hw2, hd2⟩ := digit_token_chars b a hdb hda
  have hne1 : ¬ (a ++ '-' :: b) = [] := by simp
  have hne2 : ¬ (b ++ '-' :: a) = [] := by simp
  constructor
  · unfold TtsOpenai._parse_slides_option
    rw [if_neg hne1, if_neg hne2, splitComma_no_comma _ hc1, splitComma_no_comma _ hc2,
      List.foldl_cons, List.foldl_nil, List.foldl_cons, List.foldl_nil,
      processToken_tts_symm total _ a b ha hb hda hdb]
  · unfold MergeMp3s._parse_slides_option
    rw [if_neg hne1, if_neg hne2, splitComma_no_comma _ hc1, splitComma_no_comma _ hc2,
      List.foldl_cons, List.foldl_nil, List.foldl_cons, List.foldl_nil,
      processToken_merge_symm _ a b ha hb hda hdb]

/-- Witness for the amended C8 at the concrete tokens "10-2" vs "2-10"
with bound 10 and no hint. -/
theorem C8_amended_range_symmetry_witness :
    ("10".toList ≠ [] ∧ ∀ c ∈ ("10".toList), c.isDigit = true) ∧
    TtsOpenai._parse_slides_option ("10".toList ++ '-' :: "2".toList) 10 =
      TtsOpenai._parse_slides_option ("2".toList ++ '-' :: "10".toList) 10 ∧
    MergeMp3s._parse_slides_option ("10".toList ++ '-' :: "2".toList) none =
      MergeMp3s._parse_slides_option ("2".toList ++ '-' :: "10".toList) none := by
  have h := C8_amended_range_symmetry ("10".toList) ("2".toList) 10 none
    (by decide) (by decide) (by decide) (by decide)
  exact ⟨⟨by decide, by decide⟩, h.1, h.2⟩

lemma foldl_cond_selected (P : ℤ → Prop) [DecidablePred P] (hP : ∀ i, ¬ P i)
    (L : List ℤ) : ∀ st : Finset ℤ × List (List Char), st.1 = ∅ →
    (L.foldl (fun st i => if P i then (insert i st.1, st.2)
      else (st.1, st.2 ++ [intStr i])) st).1 = ∅ := by
  induction L with
  | nil => intro st h; exact h
  | cons x L ih =>
    intro st h
    rw [List.foldl_cons, if_neg (hP x)]
    exact ih _ h

lemma processToken_selected_zero (st : Finset ℤ × List (List Char)) (tok : List Char)
    (h : st.1 = ∅) : (TtsOpenai.processToken 0 st tok).1 = ∅ := by
  have hP : ∀ i : ℤ, ¬ (1 ≤ i ∧ i ≤ ((0 : ℕ) : ℤ)) := by
    rintro i ⟨h1, h2⟩
    rw [Nat.cast_zero] at h2
    omega
  unfold TtsOpenai.processToken
  by_cases h0 : pyStrip tok = []
  · rw [if_pos h0]; exact h
  rw [if_neg h0]
  by_cases h1 : (pyStrip tok).contains '-'
  · rw [if_pos h1]
    rcases hva : pyInt (splitDashOnce (pyStrip tok)).1 with _ | va <;>
      rcases hvb : pyInt (splitDashOnce (pyStrip tok)).2 with _ | vb <;>
        simp only [hva, hvb]
    · exact h
    · exact h
    · exact h
    · exact foldl_cond_selected _ hP _ st h
  · rw [if_neg h1]
    rcases hv : pyInt (pyStrip tok) with _ | v <;> simp only [hv]
    · exact h
    · rw [if_neg (hP v)]
      exact h

lemma tokens_foldl_selected_zero (toks : List (List Char)) :
    ∀ st : Finset ℤ × List (List Char), st.1 = ∅ →
    (toks.foldl (TtsOpenai.processToken 0) st).1 = ∅ := by
  induction toks with
  | nil => intro st h; exact h
  | cons t toks ih =>
    intro st h
    rw [List.foldl_cons]
    exact ih _ (processToken_selected_zero _ _ h)

/-- With zero slides every candidate index is out of range, so the
accepted set is empty on every selection string (via the fallback, which
is the empty range 1..0). -/
lemma parse_zero_selected (opt : List Char) :
    (TtsOpenai._parse_slides_option opt 0).selected = ∅ := by
  unfold TtsOpenai._parse_slides_option
  by_cases h : opt = []
  · rw [if_pos h]
    exact Finset.Icc_eq_empty (by norm_num)
  · have hsel := tokens_foldl_selected_zero (splitComma opt) (∅, []) rfl
    simp only [if_neg h, hsel, if_pos]
    exact Finset.Icc_eq_empty (by norm_num)

lemma map_fst_filterMap_slides (slides : List (List Char)) (L : List ℤ) :
    ((L.filterMap (fun i =>
      if pyStrip (slides.getD (i - 1).toNat []) = [] then none
      else some (i, TtsOpenai.slideFileName i))).map Prod.fst) =
    L.filter (fun j => !(pyStrip (slides.getD (j - 1).toNat [])).isEmpty) := by
  induction L with
  | nil => rfl
  | cons x L ih =>
    by_cases h : pyStrip (slides.getD (x - 1).toNat []) = []
    · have h' : (pyStrip (slides.getD (x - 1).toNat [])).isEmpty = true := by
        rw [h]; rfl
      simp only [List.filterMap_cons, if_pos h, List.filter_cons, h', Bool.not_true,
        Bool.false_eq_true, if_false, ih]
    · have h' : (pyStrip (slides.getD (x - 1).toNat [])).isEmpty = false := by
        rcases hl : pyStrip (slides.getD (x - 1).toNat []) with _ | ⟨c, cs⟩
        · exact absurd hl h
        · rfl
      simp only [List.filterMap_cons, if_neg h, List.filter_cons, h', Bool.not_false,
        eq_self_iff_true, if_true, List.map_cons, ih]

/-- C9: a selected index whose slide text strips to empty is skipped —
no synthesis entry carries that index — and what the orchestrator does
process is exactly the ascending selection filtered to the indices with
non-empty stripped text, so processing continues with the next selected
index and no error is raised (the model is a total function). -/
theorem C9_empty_slides_skipped (slides : List (List Char)) (opt : List Char) (i : ℤ)
    (hi : i ∈ Finset.sort (· ≤ ·)
      (TtsOpenai._parse_slides_option opt slides.length).selected)
    (hempty : pyStrip (slides.getD (i - 1).toNat []) = []) :
    (∀ e ∈ TtsOpenai.process_presentation slides opt, e.1 ≠ i) ∧
    (TtsOpenai.process_presentation slides opt).map Prod.fst =
      (Finset.sort (· ≤ ·)
        (TtsOpenai._parse_slides_option opt slides.length).selected).filter
        (fun j => !(pyStrip (slides.getD (j - 1).toNat [])).isEmpty) := by
  by_cases hs : slides = []
  · subst hs
    rw [show (([] : List (List Char)).length) = 0 from rfl, parse_zero_selected] at hi
    simp at hi
  · have hmap : (TtsOpenai.process_presentation slides opt).map Prod.fst =
        (Finset.sort (· ≤ ·)
          (TtsOpenai._parse_slides_option opt slides.length).selected).filter
          (fun j => !(pyStrip (slides.getD (j - 1).toNat [])).isEmpty) := by
      unfold TtsOpenai.process_presentation
      rw [if_neg hs]
      exact map_fst_filterMap_slides slides _
    refine ⟨?_, hmap⟩
    intro e he heq
    have hmem : e.1 ∈ (TtsOpenai.process_presentation slides opt).map Prod.fst :=
      List.mem_map_of_mem _ he
    rw [hmap, heq] at hmem
    have hP := (List.mem_filter.mp hmem).2
    rw [hempty] at hP
    simp at hP

/-- Witness for C9 at a concrete input: three slides whose second strips
to empty, full selection; index 2 is skipped and the processed indices
are exactly [1, 3]. -/
theorem C9_empty_slides_skipped_witness :
    ((2 : ℤ) ∈ Finset.sort (· ≤ ·)
      (TtsOpenai._parse_slides_option []
        (["a".toList, " ".toList, "b".toList] : List (List Char)).length).selected) ∧
    pyStrip ((["a".toList, " ".toList, "b".toList] : List (List Char)).getD
      ((2 : ℤ) - 1).toNat []) = [] ∧
    (∀ e ∈ TtsOpenai.process_presentation ["a".toList, " ".toList, "b".toList] [],
      e.1 ≠ (2 : ℤ)) ∧
    (TtsOpenai.process_presentation ["a".toList, " ".toList, "b".toList] []).map Prod.fst =
      (Finset.sort (· ≤ ·)
        (TtsOpenai._parse_slides_option []
          (["a".toList, " ".toList, "b".toList] : List (List Char)).length).selected).filter
        (fun j => !(pyStrip ((["a".toList, " ".toList, "b".toList] :
          List (List Char)).getD ((j : ℤ) - 1).toNat [])).isEmpty) := by
  have hsort : Finset.sort (· ≤ ·)
      (TtsOpenai._parse_slides_option []
        (["a".toList, " ".toList, "b".toList] : List (List Char)).length).selected =
      [1, 2, 3] :=
    finset_sort_eq_of _ _ (by decide) (by decide)
  have hi : (2 : ℤ) ∈ Finset.sort (· ≤ ·)
      (TtsOpenai._parse_slides_option []
        (["a".toList, " ".toList, "b".toList] : List (List Char)).length).selected := by
    rw [hsort]; decide
  have hempty : pyStrip ((["a".toList, " ".toList, "b".toList] :
      List (List Char)).getD ((2 : ℤ) - 1).toNat []) = [] := by decide
  have h := C9_empty_slides_skipped ["a".toList, " ".toList, "b".toList] [] 2 hi hempty
  exact ⟨hi, hempty, h.1, h.2⟩
